import Mathlib

set_option maxHeartbeats 1000000

/-!
Verification of `docs/hooks.py`, a documentation build hook that copies two
static directories into the generated site directory.

The filesystem is modelled as a tree of nodes; paths are lists of path
components (`os.path.join(a, b)` with a single component `b` is `a ++ [b]`).
Stateful operations take the filesystem root and return either a new root or
an error paired with the filesystem at the moment the error was raised
(Python exceptions leave any partial effects in place).
-/

/-- Filesystem node: a regular file with content and modification metadata,
a symbolic link carrying its (already resolved) target, or a directory with
an ordered list of named entries. -/
inductive Node where
  | file (content : String) (mtime : Nat)
  | symlink (target : Node)
  | dir (entries : List (String × Node))

/-- Errors raised by the modelled `os` / `shutil` primitives. -/
inductive FsError where
  | fileNotFound (p : List String)
  | fileExists (p : List String)
  | notADirectory (p : List String)
  | isADirectory (p : List String)

/-- Look a name up in a directory's entry list (first match). -/
def lookupEntry : List (String × Node) → String → Option Node
  | [], _ => none
  | (k, v) :: rest, name => if k = name then some v else lookupEntry rest name

/-- Insert or overwrite a named entry, replacing the first occurrence in
place and otherwise appending at the end. -/
def insertEntry : List (String × Node) → String → Node → List (String × Node)
  | [], name, v => [(name, v)]
  | (k, w) :: rest, name, v =>
      if k = name then (name, v) :: rest else (k, w) :: insertEntry rest name v

/-- Follow a chain of symbolic links down to a real file or directory. -/
def Node.resolve : Node → Node
  | .symlink t => Node.resolve t
  | .file c m => .file c m
  | .dir es => .dir es

/-- Worker for `Node.find`, recursing on the path. -/
def findAux : List String → Node → Option Node
  | [], n => some n
  | name :: rest, n =>
      match n.resolve with
      | .dir es =>
          match lookupEntry es name with
          | some c => findAux rest c
          | none => none
      | _ => none

/-- Read the node at a path, following symbolic links at every traversed
component (the final node is returned unresolved). -/
def Node.find (n : Node) (p : List String) : Option Node := findAux p n

/-- Worker for `Node.setAt`, recursing on the path. -/
def setAtAux : List String → Node → Node → Bool → Option Node
  | [], _, v, _ => some v
  | name :: rest, fs, v, createParents =>
      match fs with
      | .dir es =>
          match lookupEntry es name with
          | some c =>
              (setAtAux rest c v createParents).map
                (fun c2 => .dir (insertEntry es name c2))
          | none =>
              match rest with
              | [] => some (.dir (insertEntry es name v))
              | _ :: _ =>
                  if createParents then
                    (setAtAux rest (.dir []) v createParents).map
                      (fun c2 => .dir (insertEntry es name c2))
                  else none
      | _ => none

/-- Write a node at a path.  Every intermediate component must be an existing
plain directory; when `createParents` is set, missing intermediate
directories are created (as `os.makedirs` does).  Returns `none` when the
path cannot be written (a non-directory blocks it). -/
def Node.setAt (fs : Node) (p : List String) (v : Node) (createParents : Bool) :
    Option Node := setAtAux p fs v createParents

/-- `os.path.isdir`: true when the path exists and resolves to a directory. -/
def os_path_isdir (fs : Node) (p : List String) : Bool :=
  match fs.find p with
  | some n => match n.resolve with | .dir _ => true | _ => false
  | none => false

/-- `os.listdir`: the names in a directory, non-recursively; raises
`FileNotFoundError` on a missing path and `NotADirectoryError` otherwise. -/
def os_listdir (fs : Node) (p : List String) :
    Except (FsError × Node) (List String) :=
  match fs.find p with
  | none => .error (.fileNotFound p, fs)
  | some n =>
      match n.resolve with
      | .dir es => .ok (es.map Prod.fst)
      | _ => .error (.notADirectory p, fs)

/-- `os.makedirs(p, exist_ok)`: create a directory and all missing parents;
an existing directory is an error unless `exist_ok`, an existing
non-directory is always `FileExistsError`. -/
def os_makedirs (fs : Node) (p : List String) (exist_ok : Bool) :
    Except (FsError × Node) Node :=
  match fs.find p with
  | some n =>
      match n.resolve with
      | .dir _ => if exist_ok then .ok fs else .error (.fileExists p, fs)
      | _ => .error (.fileExists p, fs)
  | none =>
      match fs.setAt p (.dir []) true with
      | some fs2 => .ok fs2
      | none => .error (.notADirectory p, fs)

mutual

/-- The tree produced by `shutil.copytree` from a source subtree: files are
copied with content and metadata, and a symbolic link is preserved when
`symlinks` is true and otherwise replaced by a copy of its target. -/
def copyNode (symlinks : Bool) : Node → Node
  | .file c m => .file c m
  | .symlink t => if symlinks then .symlink t else copyNode symlinks t
  | .dir es => .dir (copyEntries symlinks es)

/-- `copyNode` mapped over a directory's entry list. -/
def copyEntries (symlinks : Bool) :
    List (String × Node) → List (String × Node)
  | [] => []
  | (name, c) :: rest => (name, copyNode symlinks c) :: copyEntries symlinks rest

end

/-- `shutil.copy2(s, d)`: copy a regular file (following a symlink source)
with its metadata, overwriting an existing destination file; raises
`IsADirectoryError` when either side resolves to a directory, and requires
the destination's parent directories to already exist. -/
def shutil_copy2 (s d : List String) (fs : Node) :
    Except (FsError × Node) Node :=
  match fs.find s with
  | none => .error (.fileNotFound s, fs)
  | some n =>
      match n.resolve with
      | .file c m =>
          match (fs.find d).map Node.resolve with
          | some (.dir _) => .error (.isADirectory d, fs)
          | _ =>
              match fs.setAt d (.file c m) false with
              | some fs2 => .ok fs2
              | none => .error (.fileNotFound d, fs)
      | _ => .error (.isADirectory s, fs)

/-- `shutil.copytree(s, d, symlinks, ignore)` with the default
`dirs_exist_ok = False` and `ignore = None`: the source must resolve to a
directory, the destination must not yet exist (else `FileExistsError`), and
the whole subtree is copied (missing destination parents are created by the
internal `os.makedirs`). -/
def shutil_copytree (s d : List String) (symlinks : Bool)
    (ignore : Option Unit) (fs : Node) : Except (FsError × Node) Node :=
  match fs.find s with
  | none => .error (.fileNotFound s, fs)
  | some n =>
      match n.resolve with
      | .dir es =>
          match fs.find d with
          | some _ => .error (.fileExists d, fs)
          | none =>
              match fs.setAt d (copyNode symlinks (.dir es)) true with
              | some fs2 => .ok fs2
              | none => .error (.notADirectory d, fs)
      | _ => .error (.notADirectory s, fs)

/-- One iteration of the loop body of `copy_tree`: dispatch on
`os.path.isdir` to `shutil.copytree` or `shutil.copy2`. -/
def treeStep (src dst : List String) (symlinks : Bool) (ignore : Option Unit)
    (acc : Except (FsError × Node) Node) (item : String) :
    Except (FsError × Node) Node :=
  acc.bind fun cur =>
    if os_path_isdir cur (src ++ [item]) then
      shutil_copytree (src ++ [item]) (dst ++ [item]) symlinks ignore cur
    else
      shutil_copy2 (src ++ [item]) (dst ++ [item]) cur

/-- `copy_tree(src, dst, symlinks=False, ignore=None)` from `hooks.py`:
read the source's entry listing once, then for every listed entry copy a
subdirectory via `shutil.copytree` and a file via `shutil.copy2`. -/
def copy_tree (src dst : List String) (symlinks : Bool := false)
    (ignore : Option Unit := none) (fs : Node) :
    Except (FsError × Node) Node :=
  match os_listdir fs src with
  | .error e => .error e
  | .ok items => items.foldl (treeStep src dst symlinks ignore) (.ok fs)

/-- `copy_directory(dir_path, site_dir)` from `hooks.py`: make the
destination subdirectory (named after the logical name), then copy from the
resolved physical source (`'dist'` is remapped to `'build'`, every other
name maps to itself). -/
def copy_directory (dir_path : String) (site_dir : List String) (fs : Node) :
    Except (FsError × Node) Node :=
  let d := site_dir ++ [dir_path]
  (os_makedirs fs d true).bind fun fs2 =>
    let s : List String := if dir_path ≠ "dist" then [dir_path] else ["build"]
    copy_tree s d false none fs2

/-- The build configuration mapping: the hook reads only `site_dir`; all
other fields are opaque extra data. -/
structure Config where
  site_dir : List String
  extra : List (String × String)

/-- `copy_static_files(config, **kwargs)` from `hooks.py`: the plugin hook;
copies the `dist` job then the `demos` job into the site directory. -/
def copy_static_files (config : Config) (kwargs : List (String × String))
    (fs : Node) : Except (FsError × Node) Node :=
  let site_dir := config.site_dir
  (copy_directory "dist" site_dir fs).bind fun fs2 =>
    copy_directory "demos" site_dir fs2

/-- The spec's scenario filesystem: working directory containing
`build/app.js` and `demos/demo1/index.html`, and no site directory yet. -/
def scenarioFs : Node :=
  .dir [("build", .dir [("app.js", .file "console.log(1)" 11)]),
        ("demos", .dir [("demo1", .dir [("index.html", .file "<html></html>" 22)])])]

/-- The scenario configuration: site directory `/out`, with an unrelated
extra field. -/
def scenarioConfig : Config := ⟨["out"], [("site_name", "encantar")]⟩

/-- The filesystem produced by the first scenario invocation. -/
def scenarioFsAfter : Node :=
  .dir [("build", .dir [("app.js", .file "console.log(1)" 11)]),
        ("demos", .dir [("demo1", .dir [("index.html", .file "<html></html>" 22)])]),
        ("out", .dir
           [("dist", .dir [("app.js", .file "console.log(1)" 11)]),
            ("demos", .dir [("demo1", .dir [("index.html", .file "<html></html>" 22)])])])]

/-- A node is a regular file. -/
def isFileB : Node → Bool
  | .file _ _ => true
  | _ => false

mutual

/-- A tree contains no symbolic link anywhere. -/
def symlinkFree : Node → Bool
  | .file _ _ => true
  | .symlink _ => false
  | .dir es => entriesFree es

/-- `symlinkFree` over a directory's entry list. -/
def entriesFree : List (String × Node) → Bool
  | [] => true
  | (_, c) :: rest => symlinkFree c && entriesFree rest

end

theorem isFileB_iff {n : Node} : isFileB n = true ↔ ∃ c m, n = .file c m := by
  cases n <;> simp [isFileB]

theorem lookupEntry_insertEntry_self (es : List (String × Node)) (k : String)
    (v : Node) : lookupEntry (insertEntry es k v) k = some v := by
  induction es with
  | nil => simp [insertEntry, lookupEntry]
  | cons p rest ih =>
    obtain ⟨k2, w⟩ := p
    by_cases h : k2 = k
    · subst h; simp [insertEntry, lookupEntry]
    · simp [insertEntry, lookupEntry, h, ih]

theorem lookupEntry_insertEntry_ne (es : List (String × Node)) (k k2 : String)
    (v : Node) (h : k ≠ k2) :
    lookupEntry (insertEntry es k v) k2 = lookupEntry es k2 := by
  induction es with
  | nil => simp [insertEntry, lookupEntry, h]
  | cons p rest ih =>
    obtain ⟨k3, w⟩ := p
    by_cases h3 : k3 = k
    · subst h3; simp [insertEntry, lookupEntry, h]
    · simp [insertEntry, lookupEntry, h3, ih]

theorem insertEntry_eq_self (es : List (String × Node)) (k : String) (v : Node)
    (h : lookupEntry es k = some v) : insertEntry es k v = es := by
  induction es with
  | nil => simp [lookupEntry] at h
  | cons p rest ih =>
    obtain ⟨k2, w⟩ := p
    by_cases h2 : k2 = k
    · subst h2
      simp [lookupEntry] at h
      simp [insertEntry, h]
    · simp [lookupEntry, h2] at h
      simp [insertEntry, h2, ih h]

theorem lookupEntry_mem (es : List (String × Node)) (k : String) (v : Node)
    (h : lookupEntry es k = some v) : (k, v) ∈ es := by
  induction es with
  | nil => simp [lookupEntry] at h
  | cons p rest ih =>
    obtain ⟨k2, w⟩ := p
    by_cases h2 : k2 = k
    · subst h2
      simp [lookupEntry] at h
      simp [h]
    · simp [lookupEntry, h2] at h
      simp [ih h]

theorem lookupEntry_isSome_of_mem (es : List (String × Node)) (k : String)
    (h : k ∈ es.map Prod.fst) : ∃ v, lookupEntry es k = some v := by
  induction es with
  | nil => simp at h
  | cons p rest ih =>
    obtain ⟨k2, w⟩ := p
    by_cases h2 : k2 = k
    · subst h2; exact ⟨w, by simp [lookupEntry]⟩
    · simp only [List.map_cons, List.mem_cons] at h
      rcases h with h | h
      · exact absurd h.symm h2
      · obtain ⟨v, hv⟩ := ih h
        exact ⟨v, by simp [lookupEntry, h2, hv]⟩

theorem lookupEntry_append_notin (pre rest : List (String × Node)) (k : String)
    (h : k ∉ pre.map Prod.fst) :
    lookupEntry (pre ++ rest) k = lookupEntry rest k := by
  induction pre with
  | nil => rfl
  | cons p pre2 ih =>
    obtain ⟨k2, w⟩ := p
    simp only [List.map_cons, List.mem_cons, not_or] at h
    have h2 : ¬(k2 = k) := fun e => h.1 e.symm
    simp only [List.cons_append, lookupEntry, if_neg h2]
    exact ih h.2

theorem insertEntry_notin (es : List (String × Node)) (k : String) (v : Node)
    (h : k ∉ es.map Prod.fst) : insertEntry es k v = es ++ [(k, v)] := by
  induction es with
  | nil => rfl
  | cons p rest ih =>
    obtain ⟨k2, w⟩ := p
    simp only [List.map_cons, List.mem_cons, not_or] at h
    have h2 : ¬(k2 = k) := fun e => h.1 e.symm
    simp only [insertEntry, if_neg h2, List.cons_append, ih h.2]

theorem foldl_fixed {α β : Type} (f : α → β → α) (a : α) :
    ∀ l : List β, (∀ b ∈ l, f a b = a) → l.foldl f a = a := by
  intro l
  induction l with
  | nil => intro _; rfl
  | cons b bs ih =>
    intro h
    have hb : f a b = a := h b (by simp)
    simp only [List.foldl, hb]
    exact ih fun x hx => h x (by simp [hx])

theorem findAux_setAtAux_same : ∀ (p : List String) (fs v fs2 : Node) (cp : Bool),
    setAtAux p fs v cp = some fs2 → findAux p fs2 = some v := by
  intro p
  induction p with
  | nil =>
    intro fs v fs2 cp h
    simp [setAtAux] at h
    subst h
    rfl
  | cons name rest ih =>
    intro fs v fs2 cp h
    cases fs with
    | file c m => simp [setAtAux] at h
    | symlink t => simp [setAtAux] at h
    | dir es =>
      simp only [setAtAux] at h
      cases hl : lookupEntry es name with
      | some c =>
        rw [hl] at h
        simp only [Option.map_eq_some'] at h
        obtain ⟨c2, hset, hfs2⟩ := h
        subst hfs2
        simp only [findAux, Node.resolve, lookupEntry_insertEntry_self]
        exact ih c v c2 cp hset
      | none =>
        rw [hl] at h
        cases rest with
        | nil =>
          simp only [Option.some.injEq] at h
          subst h
          simp [findAux, Node.resolve, lookupEntry_insertEntry_self]
        | cons r rs =>
          cases cp with
          | false => simp at h
          | true =>
            simp only [if_true, Option.map_eq_some'] at h
            obtain ⟨c2, hset, hfs2⟩ := h
            subst hfs2
            simp only [findAux, Node.resolve, lookupEntry_insertEntry_self]
            exact ih (.dir []) v c2 true hset

theorem find_setAt_same (p : List String) (fs v fs2 : Node) (cp : Bool)
    (h : Node.setAt fs p v cp = some fs2) : Node.find fs2 p = some v :=
  findAux_setAtAux_same p fs v fs2 cp h

theorem os_makedirs_isdir (fs : Node) (p : List String) (eo : Bool)
    (fs2 : Node) (h : os_makedirs fs p eo = .ok fs2) :
    os_path_isdir fs2 p = true := by
  unfold os_makedirs at h
  split at h
  · rename_i n hf
    split at h
    · rename_i es hr
      split at h
      · rename_i heo
        simp only [Except.ok.injEq] at h
        subst h
        simp [os_path_isdir, Node.find] at hf ⊢
        simp [hf, hr]
      · simp at h
    · simp at h
  · rename_i hf
    split at h
    · rename_i fs3 hs
      simp only [Except.ok.injEq] at h
      subst h
      have hfind := find_setAt_same p fs (.dir []) fs3 true hs
      simp [os_path_isdir, hfind, Node.resolve]
    · simp at h

theorem copyEntries_eq_of_free (sl : Bool) (k : Nat)
    (ih : ∀ m : Node, sizeOf m ≤ k → symlinkFree m = true → copyNode sl m = m) :
    ∀ es : List (String × Node), sizeOf es ≤ k → entriesFree es = true →
      copyEntries sl es = es := by
  intro es
  induction es with
  | nil => intro _ _; rfl
  | cons p rest ihl =>
    obtain ⟨name, c⟩ := p
    intro hsz hfree
    simp only [entriesFree, Bool.and_eq_true] at hfree
    have hszc : sizeOf c ≤ k := by
      have : sizeOf c < sizeOf ((name, c) :: rest) := by simp; omega
      omega
    have hszr : sizeOf rest ≤ k := by
      have : sizeOf rest < sizeOf ((name, c) :: rest) := by simp
      omega
    simp only [copyEntries, ih c hszc hfree.1, ihl hszr hfree.2]

theorem copyNode_eq_of_free (sl : Bool) :
    ∀ (k : Nat) (n : Node), sizeOf n ≤ k → symlinkFree n = true →
      copyNode sl n = n := by
  intro k
  induction k with
  | zero =>
    intro n hsz
    exfalso
    cases n <;> simp at hsz
  | succ k ih =>
    intro n hsz hfree
    cases n with
    | file c m => rfl
    | symlink t => simp [symlinkFree] at hfree
    | dir es =>
      have hszes : sizeOf es ≤ k := by simp at hsz; omega
      simp only [symlinkFree] at hfree
      rw [copyNode, copyEntries_eq_of_free sl k ih es hszes hfree]

theorem copyNode_id (sl : Bool) (n : Node) (h : symlinkFree n = true) :
    copyNode sl n = n :=
  copyNode_eq_of_free sl (sizeOf n) n le_rfl h

/-- Every value stored in an entry list is a regular file. -/
def allFilesB (es : List (String × Node)) : Bool :=
  es.all fun p => isFileB p.2

theorem allFilesB_lookup (es : List (String × Node)) (h : allFilesB es = true)
    (k : String) (v : Node) (hl : lookupEntry es k = some v) :
    ∃ c m, v = Node.file c m := by
  have hm := lookupEntry_mem es k v hl
  simp only [allFilesB, List.all_eq_true] at h
  exact isFileB_iff.mp (h ⟨k, v⟩ hm)

theorem allFiles_mem_lookup (es : List (String × Node))
    (h : allFilesB es = true) (n : String) (hn : n ∈ es.map Prod.fst) :
    ∃ c m, lookupEntry es n = some (Node.file c m) := by
  obtain ⟨v, hv⟩ := lookupEntry_isSome_of_mem es n hn
  obtain ⟨c, m, hcm⟩ := allFilesB_lookup es h n v hv
  exact ⟨c, m, by rw [hv, hcm]⟩

/-- Inversion of a successful `Except.bind`. -/
theorem except_bind_ok {ε α β : Type} (x : Except ε α) (f : α → Except ε β)
    (b : β) (h : x.bind f = .ok b) : ∃ a, x = .ok a ∧ f a = .ok b := by
  cases x with
  | error e => simp [Except.bind] at h
  | ok a => exact ⟨a, rfl, h⟩

theorem lookup_mem_keys (es : List (String × Node)) (n : String) (v : Node)
    (h : lookupEntry es n = some v) : n ∈ es.map Prod.fst :=
  List.mem_map.mpr ⟨(n, v), lookupEntry_mem es n v h, rfl⟩

/-- Replacing the entry at a present key leaves the list unchanged only if
the written value is the stored one. -/
theorem insertEntry_fix_value (es : List (String × Node)) (k : String)
    (x y : Node) (hfix : insertEntry es k x = es)
    (hl : lookupEntry es k = some y) : x = y := by
  induction es with
  | nil => simp [lookupEntry] at hl
  | cons p rest ih =>
    obtain ⟨k2, w⟩ := p
    by_cases h2 : k2 = k
    · subst h2
      have hfix2 : (k2, x) :: rest = (k2, w) :: rest := by
        rw [← hfix]; simp [insertEntry]
      have hx : x = w := by
        simpa using congrArg List.head? hfix2
      have hw : w = y := by
        have h3 : some w = some y := by
          rw [← hl]; simp [lookupEntry]
        injection h3
      exact hx.trans hw
    · simp only [insertEntry, if_neg h2, List.cons.injEq] at hfix
      simp only [lookupEntry, if_neg h2] at hl
      exact ih hfix.2 hl

/-- Writing at an absent key changes the list. -/
theorem insertEntry_ne_of_none (es : List (String × Node)) (k : String)
    (v : Node) (hl : lookupEntry es k = none) : insertEntry es k v ≠ es := by
  intro hfix
  have hk : k ∉ es.map Prod.fst := by
    intro hm
    obtain ⟨w, hw⟩ := lookupEntry_isSome_of_mem es k hm
    rw [hw] at hl
    cases hl
  rw [insertEntry_notin es k v hk] at hfix
  have hlen := congrArg List.length hfix
  simp at hlen

/-- Re-inserting an entry just written is a no-op. -/
theorem insertEntry_insertEntry (es : List (String × Node)) (k : String)
    (v : Node) : insertEntry (insertEntry es k v) k v = insertEntry es k v :=
  insertEntry_eq_self _ _ _ (lookupEntry_insertEntry_self es k v)

/-- `findAux` splits along path concatenation. -/
theorem findAux_append : ∀ (p q : List String) (fs : Node),
    findAux (p ++ q) fs = (findAux p fs).bind (fun n2 => findAux q n2) := by
  intro p
  induction p with
  | nil => intro q fs; rfl
  | cons a p2 ih =>
    intro q fs
    show findAux (a :: (p2 ++ q)) fs = _
    cases hres : fs.resolve with
    | dir es =>
      cases hl : lookupEntry es a with
      | some c => simp [findAux, hres, hl, ih]
      | none => simp [findAux, hres, hl]
    | file c m => simp [findAux, hres]
    | symlink t => simp [findAux, hres]

theorem foldl_treeStep_error (src dst : List String) (sl : Bool)
    (ig : Option Unit) (e : FsError × Node) :
    ∀ l : List String,
      List.foldl (treeStep src dst sl ig) (.error e) l = .error e := by
  intro l
  induction l with
  | nil => rfl
  | cons n rest ih =>
    simp only [List.foldl_cons]
    rw [show treeStep src dst sl ig (.error e) n = .error e from rfl]
    exact ih

theorem listdir_of_find (fs : Node) (p : List String)
    (es : List (String × Node)) (h : Node.find fs p = some (.dir es)) :
    os_listdir fs p = .ok (es.map Prod.fst) := by
  unfold os_listdir
  rw [h]
  rfl

theorem os_makedirs_noop (fs : Node) (p : List String)
    (h : os_path_isdir fs p = true) : os_makedirs fs p true = .ok fs := by
  unfold os_path_isdir at h
  split at h
  · rename_i n hf
    split at h
    · rename_i es hr
      simp [os_makedirs, hf, hr]
    · simp at h
  · simp at h

theorem isdir_congr (g g2 : Node) (p : List String)
    (h : Node.find g p = Node.find g2 p) :
    os_path_isdir g p = os_path_isdir g2 p := by
  unfold os_path_isdir
  rw [h]

/-- One-step unfolding of `setAtAux` through an existing entry. -/
theorem setAtAux_cons_some (a : String) (rest : List String)
    (es : List (String × Node)) (c v : Node) (cp : Bool)
    (hl : lookupEntry es a = some c) :
    setAtAux (a :: rest) (.dir es) v cp =
      (setAtAux rest c v cp).map (fun c2 => .dir (insertEntry es a c2)) := by
  simp only [setAtAux, hl]

/-- A successful write is idempotent: writing the same value again at the
same path (without parent creation) succeeds and changes nothing. -/
theorem setAt_idem : ∀ (p : List String) (fs v fs2 : Node) (cp : Bool),
    setAtAux p fs v cp = some fs2 → setAtAux p fs2 v false = some fs2 := by
  intro p
  induction p with
  | nil =>
    intro fs v fs2 cp h
    simp only [setAtAux, Option.some.injEq] at h
    subst h
    rfl
  | cons a rest ih =>
    intro fs v fs2 cp h
    cases fs with
    | file c m => simp [setAtAux] at h
    | symlink t => simp [setAtAux] at h
    | dir es =>
      simp only [setAtAux] at h
      cases hl : lookupEntry es a with
      | some c =>
        rw [hl] at h
        simp only [Option.map_eq_some'] at h
        obtain ⟨c2, hset, hfs2⟩ := h
        subst hfs2
        have hrec := ih c v c2 cp hset
        rw [setAtAux_cons_some a rest (insertEntry es a c2) c2 v false
          (lookupEntry_insertEntry_self es a c2), hrec]
        show some (Node.dir (insertEntry (insertEntry es a c2) a c2)) = _
        rw [insertEntry_insertEntry]
      | none =>
        rw [hl] at h
        cases rest with
        | nil =>
          simp only [Option.some.injEq] at h
          subst h
          rw [setAtAux_cons_some a [] (insertEntry es a v) v v false
            (lookupEntry_insertEntry_self es a v)]
          show some (Node.dir (insertEntry (insertEntry es a v) a v)) = _
          rw [insertEntry_insertEntry]
        | cons r rs =>
          cases cp with
          | false => simp at h
          | true =>
            simp only [if_true, Option.map_eq_some'] at h
            obtain ⟨c2, hset, hfs2⟩ := h
            subst hfs2
            have hrec := ih (.dir []) v c2 true hset
            rw [setAtAux_cons_some a (r :: rs) (insertEntry es a c2) c2 v false
              (lookupEntry_insertEntry_self es a c2), hrec]
            show some (Node.dir (insertEntry (insertEntry es a c2) a c2)) = _
            rw [insertEntry_insertEntry]

theorem isdir_child_lookup (es : List (String × Node)) (a : String) (c : Node)
    (p : List String) (hl : lookupEntry es a = some c) :
    os_path_isdir (.dir es) (a :: p) = os_path_isdir c p := by
  unfold os_path_isdir Node.find
  simp [findAux, Node.resolve, hl]

/-- A successful write strictly below a path leaves that path a directory. -/
theorem setAt_child_isdir : ∀ (p : List String) (n : String)
    (fs v fs2 : Node) (cp : Bool),
    setAtAux (p ++ [n]) fs v cp = some fs2 → os_path_isdir fs2 p = true := by
  intro p
  induction p with
  | nil =>
    intro n fs v fs2 cp h
    cases fs with
    | file c m => simp [setAtAux] at h
    | symlink t => simp [setAtAux] at h
    | dir es =>
      simp only [List.nil_append, setAtAux] at h
      cases hl : lookupEntry es n with
      | some c =>
        rw [hl] at h
        simp only [Option.map_eq_some'] at h
        obtain ⟨c2, _, hfs2⟩ := h
        subst hfs2
        simp [os_path_isdir, Node.find, findAux, Node.resolve]
      | none =>
        rw [hl] at h
        simp only [Option.some.injEq] at h
        subst h
        simp [os_path_isdir, Node.find, findAux, Node.resolve]
  | cons a p2 ih =>
    intro n fs v fs2 cp h
    cases fs with
    | file c m => simp [setAtAux] at h
    | symlink t => simp [setAtAux] at h
    | dir es =>
      simp only [List.cons_append, setAtAux, List.append_eq] at h
      cases hl : lookupEntry es a with
      | some c =>
        rw [hl] at h
        simp only [Option.map_eq_some'] at h
        obtain ⟨c2, hset, hfs2⟩ := h
        subst hfs2
        rw [isdir_child_lookup _ a c2 p2 (lookupEntry_insertEntry_self es a c2)]
        exact ih n c v c2 cp hset
      | none =>
        rw [hl] at h
        cases hp2 : p2 ++ [n] with
        | nil => exact absurd hp2 (by simp)
        | cons r rs =>
          rw [hp2] at h
          cases cp with
          | false => simp at h
          | true =>
            simp only [if_true, Option.map_eq_some'] at h
            obtain ⟨c2, hset, hfs2⟩ := h
            subst hfs2
            rw [isdir_child_lookup _ a c2 p2
              (lookupEntry_insertEntry_self es a c2)]
            rw [← hp2] at hset
            exact ih n (.dir []) v c2 true hset

/-- A chain of directories freshly created along one path contains nothing
along any path that diverges from it. -/
theorem setAtAux_fresh_find : ∀ (pre : List String) (a b : String)
    (p2 q2 : List String) (w : Node) (cp : Bool) (m : Node), a ≠ b →
    setAtAux (pre ++ a :: p2) (.dir []) w cp = some m →
    findAux (pre ++ b :: q2) m = none := by
  intro pre
  induction pre with
  | nil =>
    intro a b p2 q2 w cp m hab h
    simp only [List.nil_append, setAtAux, lookupEntry] at h
    cases p2 with
    | nil =>
      simp only [Option.some.injEq] at h
      subst h
      simp only [findAux, Node.resolve, insertEntry, lookupEntry, if_neg hab]
    | cons r rs =>
      cases cp with
      | false => simp at h
      | true =>
        simp only [if_true, Option.map_eq_some'] at h
        obtain ⟨c2, _, hm⟩ := h
        subst hm
        simp only [findAux, Node.resolve, insertEntry, lookupEntry,
          if_neg hab]
  | cons x pre2 ih =>
    intro a b p2 q2 w cp m hab h
    simp only [List.cons_append, setAtAux, lookupEntry, List.append_eq] at h
    cases hrest : pre2 ++ a :: p2 with
    | nil => exact absurd hrest (by simp)
    | cons r rs =>
      rw [hrest] at h
      cases cp with
      | false => simp at h
      | true =>
        simp only [if_true, Option.map_eq_some'] at h
        obtain ⟨c2, hset, hm⟩ := h
        rw [← hrest] at hset
        subst hm
        show findAux (x :: (pre2 ++ b :: q2)) _ = none
        simp only [findAux, Node.resolve, lookupEntry_insertEntry_self]
        exact ih a b p2 q2 w true c2 hab hset

/-- Core frame property: a successful write at `pre ++ a :: p2` preserves,
at every diverging path `pre ++ b :: q2` (`a ≠ b`), both the result of
`findAux` and the no-op behaviour of a same-value re-write. -/
theorem frame_pair_core : ∀ (pre : List String) (a b : String)
    (p2 q2 : List String) (fs fs2 w v : Node) (cp : Bool), a ≠ b →
    setAtAux (pre ++ a :: p2) fs w cp = some fs2 →
    (findAux (pre ++ b :: q2) fs2 = findAux (pre ++ b :: q2) fs) ∧
    (setAtAux (pre ++ b :: q2) fs v false = some fs →
      setAtAux (pre ++ b :: q2) fs2 v false = some fs2) := by
  intro pre
  induction pre with
  | nil =>
    intro a b p2 q2 fs fs2 w v cp hab h
    cases fs with
    | file c m => simp [setAtAux] at h
    | symlink t => simp [setAtAux] at h
    | dir es =>
      simp only [List.nil_append, setAtAux] at h
      have hX : ∃ X, fs2 = Node.dir (insertEntry es a X) := by
        cases hl : lookupEntry es a with
        | some c =>
          rw [hl] at h
          simp only [Option.map_eq_some'] at h
          obtain ⟨c2, _, hfs2⟩ := h
          exact ⟨c2, hfs2.symm⟩
        | none =>
          rw [hl] at h
          cases p2 with
          | nil =>
            simp only [Option.some.injEq] at h
            exact ⟨w, h.symm⟩
          | cons r rs =>
            cases cp with
            | false => simp at h
            | true =>
              simp only [if_true, Option.map_eq_some'] at h
              obtain ⟨c2, _, hfs2⟩ := h
              exact ⟨c2, hfs2.symm⟩
      obtain ⟨X, hfs2⟩ := hX
      subst hfs2
      constructor
      · show findAux (b :: q2) _ = findAux (b :: q2) (Node.dir es)
        simp only [findAux, Node.resolve,
          lookupEntry_insertEntry_ne es a b X hab]
      · intro hid
        show setAtAux (b :: q2) _ v false = _
        have hid2 : setAtAux (b :: q2) (Node.dir es) v false =
            some (Node.dir es) := hid
        cases hlb : lookupEntry es b with
        | some cb =>
          rw [setAtAux_cons_some b q2 es cb v false hlb] at hid2
          simp only [Option.map_eq_some'] at hid2
          obtain ⟨cb2, hsetb, heq⟩ := hid2
          have heq2 : insertEntry es b cb2 = es := by injection heq
          have hval : cb2 = cb := insertEntry_fix_value es b cb2 cb heq2 hlb
          rw [hval] at hsetb
          rw [setAtAux_cons_some b q2 (insertEntry es a X) cb v false
            (by rw [lookupEntry_insertEntry_ne es a b X hab]; exact hlb),
            hsetb]
          show some (Node.dir (insertEntry (insertEntry es a X) b cb)) = _
          rw [insertEntry_eq_self (insertEntry es a X) b cb
            (by rw [lookupEntry_insertEntry_ne es a b X hab]; exact hlb)]
        | none =>
          exfalso
          simp only [setAtAux] at hid2
          rw [hlb] at hid2
          cases q2 with
          | nil =>
            simp only [Option.some.injEq] at hid2
            have heq2 : insertEntry es b v = es := by injection hid2
            exact insertEntry_ne_of_none es b v hlb heq2
          | cons r rs => simp at hid2
  | cons x pre2 ih =>
    intro a b p2 q2 fs fs2 w v cp hab h
    cases fs with
    | file c m => simp [setAtAux] at h
    | symlink t => simp [setAtAux] at h
    | dir es =>
      simp only [List.cons_append, setAtAux, List.append_eq] at h
      cases hlx : lookupEntry es x with
      | some c =>
        rw [hlx] at h
        simp only [Option.map_eq_some'] at h
        obtain ⟨c2, hset, hfs2⟩ := h
        subst hfs2
        have hsub := ih a b p2 q2 c c2 w v cp hab hset
        constructor
        · show findAux (x :: (pre2 ++ b :: q2)) _ =
            findAux (x :: (pre2 ++ b :: q2)) (Node.dir es)
          simp only [findAux, Node.resolve,
            lookupEntry_insertEntry_self, hlx]
          exact hsub.1
        · intro hid
          show setAtAux (x :: (pre2 ++ b :: q2)) _ v false = _
          have hid2 : setAtAux (x :: (pre2 ++ b :: q2)) (Node.dir es) v false
              = some (Node.dir es) := hid
          rw [setAtAux_cons_some x (pre2 ++ b :: q2) es c v false hlx] at hid2
          simp only [Option.map_eq_some'] at hid2
          obtain ⟨c3, hsetb, heq⟩ := hid2
          have heq2 : insertEntry es x c3 = es := by injection heq
          have hval : c3 = c := insertEntry_fix_value es x c3 c heq2 hlx
          rw [hval] at hsetb
          rw [setAtAux_cons_some x (pre2 ++ b :: q2) (insertEntry es x c2) c2
            v false (lookupEntry_insertEntry_self es x c2),
            hsub.2 hsetb]
          show some (Node.dir (insertEntry (insertEntry es x c2) x c2)) = _
          rw [insertEntry_insertEntry]
      | none =>
        rw [hlx] at h
        cases hrest : pre2 ++ a :: p2 with
        | nil => exact absurd hrest (by simp)
        | cons r rs =>
          rw [hrest] at h
          cases cp with
          | false => simp at h
          | true =>
            simp only [if_true, Option.map_eq_some'] at h
            obtain ⟨c2, hset, hfs2⟩ := h
            rw [← hrest] at hset
            subst hfs2
            constructor
            · have hnew : findAux (pre2 ++ b :: q2) c2 = none :=
                setAtAux_fresh_find pre2 a b p2 q2 w true c2 hab hset
              show findAux (x :: (pre2 ++ b :: q2)) _ =
                findAux (x :: (pre2 ++ b :: q2)) (Node.dir es)
              simp only [findAux, Node.resolve,
                lookupEntry_insertEntry_self, hlx, hnew]
            · intro hid
              exfalso
              have hid2 : setAtAux (x :: (pre2 ++ b :: q2)) (Node.dir es) v
                  false = some (Node.dir es) := hid
              simp only [setAtAux] at hid2
              rw [hlx] at hid2
              cases hrb : pre2 ++ b :: q2 with
              | nil => exact absurd hrb (by simp)
              | cons r2 rs2 =>
                rw [hrb] at hid2
                simp at hid2

/-- `frame_pair_core` repackaged over path equations, with `Node.find`. -/
theorem frame_pair (P Q : List String) (pre : List String) (a b : String)
    (p2 q2 : List String) (hP : P = pre ++ a :: p2) (hQ : Q = pre ++ b :: q2)
    (hab : a ≠ b) (fs fs2 w v : Node) (cp : Bool)
    (h : setAtAux P fs w cp = some fs2) :
    (Node.find fs2 Q = Node.find fs Q) ∧
    (setAtAux Q fs v false = some fs →
      setAtAux Q fs2 v false = some fs2) := by
  subst hP hQ
  exact frame_pair_core pre a b p2 q2 fs fs2 w v cp hab h

/-- `os.makedirs` with `exist_ok` preserves reads and no-op writes at every
diverging path. -/
theorem os_makedirs_frame (fs fs2 : Node) (P Q : List String)
    (pre : List String) (a b : String) (p2 q2 : List String)
    (hP : P = pre ++ a :: p2) (hQ : Q = pre ++ b :: q2) (hab : a ≠ b)
    (h : os_makedirs fs P true = .ok fs2) (v : Node) :
    (Node.find fs2 Q = Node.find fs Q) ∧
    (setAtAux Q fs v false = some fs →
      setAtAux Q fs2 v false = some fs2) := by
  unfold os_makedirs at h
  split at h
  · split at h
    · split at h
      · simp only [Except.ok.injEq] at h
        subst h
        exact ⟨rfl, fun hv => hv⟩
      · simp at h
    · simp at h
  · split at h
    · rename_i fs3 hset
      simp only [Except.ok.injEq] at h
      subst h
      exact frame_pair P Q pre a b p2 q2 hP hQ hab fs fs3 (.dir []) v true hset
    · simp at h

/-- Inversion of a successful file-copy fold of the `copy_tree` loop over a
source directory of regular files: the fold leaves the source untouched,
keeps the destination a directory, leaves every source entry present at its
destination with a no-op re-write, and preserves reads and no-op writes at
every path diverging from the destination. -/
theorem fold_inv (src dst : List String) (full : List (String × Node))
    (pre0 : List String) (b0 a0 : String) (q0 p0 : List String)
    (hsrc_eq : src = pre0 ++ b0 :: q0) (hdst_eq : dst = pre0 ++ a0 :: p0)
    (hab0 : a0 ≠ b0) :
    ∀ (todo : List String) (g gout : Node),
      Node.find g src = some (.dir full) →
      (∀ n ∈ todo, ∃ c m, lookupEntry full n = some (Node.file c m)) →
      (∀ n v, lookupEntry full n = some v → n ∉ todo →
        Node.find g (dst ++ [n]) = some v ∧
        setAtAux (dst ++ [n]) g v false = some g) →
      List.foldl (treeStep src dst false none) (.ok g) todo = .ok gout →
      Node.find gout src = some (.dir full) ∧
      (os_path_isdir g dst = true → os_path_isdir gout dst = true) ∧
      (∀ n v, lookupEntry full n = some v →
        Node.find gout (dst ++ [n]) = some v ∧
        setAtAux (dst ++ [n]) gout v false = some gout) ∧
      (∀ (Q pre : List String) (a2 b2 : String) (p2 q2 : List String)
          (v2 : Node), dst = pre ++ a2 :: p2 → Q = pre ++ b2 :: q2 →
          a2 ≠ b2 →
        Node.find gout Q = Node.find g Q ∧
        (setAtAux Q g v2 false = some g →
          setAtAux Q gout v2 false = some gout)) := by
  intro todo
  induction todo with
  | nil =>
    intro g gout hsrc htodo hP hfold
    simp only [List.foldl_nil, Except.ok.injEq] at hfold
    subst hfold
    refine ⟨hsrc, fun hh => hh, fun n v hv => hP n v hv (by simp), ?_⟩
    intro Q pre a2 b2 p2 q2 v2 _ _ _
    exact ⟨rfl, fun hv => hv⟩
  | cons n0 rest ih =>
    intro g gout hsrc htodo hP hfold
    obtain ⟨c, m, hlook⟩ := htodo n0 (by simp)
    rw [List.foldl_cons] at hfold
    cases hstep : treeStep src dst false none (.ok g) n0 with
    | error e =>
      rw [hstep, foldl_treeStep_error] at hfold
      cases hfold
    | ok g1 =>
      rw [hstep] at hfold
      have hfind_s : Node.find g (src ++ [n0]) = some (Node.file c m) := by
        show findAux (src ++ [n0]) g = some (Node.file c m)
        rw [findAux_append src [n0] g,
          show findAux src g = some (Node.dir full) from hsrc]
        simp [findAux, Node.resolve, hlook]
      have hdirf : os_path_isdir g (src ++ [n0]) = false := by
        simp [os_path_isdir, hfind_s, Node.resolve]
      have hset : setAtAux (dst ++ [n0]) g (Node.file c m) false = some g1 := by
        unfold treeStep at hstep
        simp only [Except.bind, hdirf, Bool.false_eq_true, if_false] at hstep
        unfold shutil_copy2 at hstep
        rw [hfind_s] at hstep
        simp only [Node.resolve] at hstep
        split at hstep
        · simp at hstep
        · split at hstep
          · rename_i fs3 hset2
            simp only [Except.ok.injEq] at hstep
            subst hstep
            exact hset2
          · simp at hstep
      have hsrc1 : Node.find g1 src = some (Node.dir full) := by
        have hfr := frame_pair (dst ++ [n0]) src pre0 a0 b0 (p0 ++ [n0]) q0
          (by rw [hdst_eq]; simp) hsrc_eq hab0 g g1 (Node.file c m)
          (Node.file c m) false hset
        rw [hfr.1, hsrc]
      have hP1 : ∀ n v, lookupEntry full n = some v → n ∉ rest →
          Node.find g1 (dst ++ [n]) = some v ∧
          setAtAux (dst ++ [n]) g1 v false = some g1 := by
        intro n v hv hnr
        by_cases hn : n = n0
        · subst hn
          rw [hlook] at hv
          injection hv with hv2
          subst hv2
          exact ⟨findAux_setAtAux_same (dst ++ [n]) g (Node.file c m) g1
              false hset,
            setAt_idem (dst ++ [n]) g (Node.file c m) g1 false hset⟩
        · have hnr0 : n ∉ n0 :: rest := by
            simp only [List.mem_cons, not_or]
            exact ⟨hn, hnr⟩
          obtain ⟨hf0, hs0⟩ := hP n v hv hnr0
          have hfr := frame_pair (dst ++ [n0]) (dst ++ [n]) dst n0 n [] []
            rfl rfl (fun he => hn he.symm) g g1 (Node.file c m) v false hset
          exact ⟨by rw [hfr.1]; exact hf0, hfr.2 hs0⟩
      obtain ⟨ih1, ih2, ih3, ih4⟩ := ih g1 gout hsrc1
        (fun n hn2 => htodo n (List.mem_cons_of_mem n0 hn2)) hP1 hfold
      refine ⟨ih1, ?_, ih3, ?_⟩
      · intro _
        exact ih2 (setAt_child_isdir dst n0 g (Node.file c m) g1 false hset)
      · intro Q pre a2 b2 p2 q2 v2 hdst hQ hab2
        have hset2 : setAtAux (pre ++ a2 :: (p2 ++ [n0])) g (Node.file c m)
            false = some g1 := by
          rw [show pre ++ a2 :: (p2 ++ [n0]) = dst ++ [n0] from by
            rw [hdst]; simp]
          exact hset
        have hfr := frame_pair (pre ++ a2 :: (p2 ++ [n0])) Q pre a2 b2
          (p2 ++ [n0]) q2 rfl hQ hab2 g g1 (Node.file c m) v2 false hset2
        obtain ⟨ihf, ihs⟩ := ih4 Q pre a2 b2 p2 q2 v2 hdst hQ hab2
        exact ⟨ihf.trans hfr.1, fun hv => ihs (hfr.2 hv)⟩

/-- A whole `copy_directory` job is a no-op once the destination directory
exists and every (regular-file) source entry is already present at its
destination with a no-op re-write. -/
theorem copy_directory_noop (dp : String) (srcp : List String)
    (sd : List String) (fs : Node) (full : List (String × Node))
    (hmap : (if dp ≠ "dist" then [dp] else ["build"]) = srcp)
    (hsrc : Node.find fs srcp = some (.dir full))
    (hfiles : allFilesB full = true)
    (hdir : os_path_isdir fs (sd ++ [dp]) = true)
    (hp3 : ∀ n v, lookupEntry full n = some v →
      Node.find fs ((sd ++ [dp]) ++ [n]) = some v ∧
      setAtAux ((sd ++ [dp]) ++ [n]) fs v false = some fs) :
    copy_directory dp sd fs = .ok fs := by
  have e1 : copy_directory dp sd fs =
      (os_makedirs fs (sd ++ [dp]) true).bind
        (fun x => copy_tree (if dp ≠ "dist" then [dp] else ["build"])
          (sd ++ [dp]) false none x) := rfl
  rw [e1, os_makedirs_noop fs (sd ++ [dp]) hdir, hmap]
  show copy_tree srcp (sd ++ [dp]) false none fs = .ok fs
  have e2 : copy_tree srcp (sd ++ [dp]) false none fs =
      (full.map Prod.fst).foldl
        (treeStep srcp (sd ++ [dp]) false none) (.ok fs) := by
    unfold copy_tree
    rw [listdir_of_find fs srcp full hsrc]
  rw [e2]
  apply foldl_fixed
  intro n hn
  obtain ⟨c, m, hlook⟩ := allFiles_mem_lookup full hfiles n hn
  have hfind_s : Node.find fs (srcp ++ [n]) = some (Node.file c m) := by
    show findAux (srcp ++ [n]) fs = some (Node.file c m)
    rw [findAux_append srcp [n] fs,
      show findAux srcp fs = some (Node.dir full) from hsrc]
    simp [findAux, Node.resolve, hlook]
  have hdirf : os_path_isdir fs (srcp ++ [n]) = false := by
    simp [os_path_isdir, hfind_s, Node.resolve]
  obtain ⟨hfd2, hsd2⟩ := hp3 n (Node.file c m) hlook
  unfold treeStep
  simp only [Except.bind, hdirf, Bool.false_eq_true, if_false]
  unfold shutil_copy2
  rw [hfind_s]
  simp only [Node.resolve, hfd2, Option.map_some']
  rw [show Node.setAt fs ((sd ++ [dp]) ++ [n]) (Node.file c m) false =
      some fs from hsd2]

/-- Replaying publish on a filesystem satisfying the post-state facts of a
successful file-only run changes nothing. -/
theorem publish_on_post (cfg : Config) (kw : List (String × String))
    (h0 : String) (sd2 : List String) (bes des : List (String × Node))
    (g : Node) (hsd : cfg.site_dir = h0 :: sd2)
    (hfb : Node.find g ["build"] = some (.dir bes))
    (hab : allFilesB bes = true)
    (hfd : Node.find g ["demos"] = some (.dir des))
    (had : allFilesB des = true)
    (hd1 : os_path_isdir g ((h0 :: sd2) ++ ["dist"]) = true)
    (hd2 : os_path_isdir g ((h0 :: sd2) ++ ["demos"]) = true)
    (hp3b : ∀ n v, lookupEntry bes n = some v →
      Node.find g (((h0 :: sd2) ++ ["dist"]) ++ [n]) = some v ∧
      setAtAux (((h0 :: sd2) ++ ["dist"]) ++ [n]) g v false = some g)
    (hp3d : ∀ n v, lookupEntry des n = some v →
      Node.find g (((h0 :: sd2) ++ ["demos"]) ++ [n]) = some v ∧
      setAtAux (((h0 :: sd2) ++ ["demos"]) ++ [n]) g v false = some g) :
    copy_static_files cfg kw g = .ok g := by
  have e : copy_static_files cfg kw g =
      (copy_directory "dist" cfg.site_dir g).bind
        (fun fs2 => copy_directory "demos" cfg.site_dir fs2) := rfl
  rw [e, hsd,
    copy_directory_noop "dist" ["build"] (h0 :: sd2) g bes rfl hfb hab hd1
      hp3b]
  show copy_directory "demos" (h0 :: sd2) g = .ok g
  exact copy_directory_noop "demos" ["demos"] (h0 :: sd2) g des rfl hfd had
    hd2 hp3d

/-- Claim C3 as amended: for every configuration whose site directory is a
non-empty path that does not start with `build` or `demos` (so the
destination tree does not sit inside a source directory), and for every
filesystem state in which the working directory's `build` and `demos`
entries are directories containing only regular files and in which a first
invocation of publish succeeds, a second invocation with the same
configuration and unchanged sources succeeds and leaves the entire
filesystem — in particular the destination content — identical to the
first invocation's result. -/
theorem C3_amended_idempotent_for_file_only_sources
    (cfg : Config) (kw : List (String × String))
    (fs fs1 : Node) (h0 : String) (sd2 : List String)
    (bes des : List (String × Node))
    (hsd : cfg.site_dir = h0 :: sd2)
    (hb0 : h0 ≠ "build") (hd0 : h0 ≠ "demos")
    (hfb : Node.find fs ["build"] = some (.dir bes))
    (hab : allFilesB bes = true)
    (hfd : Node.find fs ["demos"] = some (.dir des))
    (had : allFilesB des = true)
    (hfirst : copy_static_files cfg kw fs = .ok fs1) :
    copy_static_files cfg kw fs1 = .ok fs1 := by
  have e : copy_static_files cfg kw fs =
      (copy_directory "dist" cfg.site_dir fs).bind
        (fun fs2 => copy_directory "demos" cfg.site_dir fs2) := rfl
  rw [e, hsd] at hfirst
  obtain ⟨gB, hdist, hdemos⟩ := except_bind_ok _ _ _ hfirst
  have e1 : copy_directory "dist" (h0 :: sd2) fs =
      (os_makedirs fs ((h0 :: sd2) ++ ["dist"]) true).bind
        (fun x => copy_tree ["build"] ((h0 :: sd2) ++ ["dist"])
          false none x) := rfl
  rw [e1] at hdist
  obtain ⟨gA, hmkA, hctA⟩ := except_bind_ok _ _ _ hdist
  have hfbA : Node.find gA ["build"] = some (.dir bes) := by
    have hfr := os_makedirs_frame fs gA ((h0 :: sd2) ++ ["dist"]) ["build"]
      [] h0 "build" (sd2 ++ ["dist"]) [] (by simp) (by simp) hb0 hmkA
      (Node.file "" 0)
    rw [hfr.1]
    exact hfb
  have hfdA : Node.find gA ["demos"] = some (.dir des) := by
    have hfr := os_makedirs_frame fs gA ((h0 :: sd2) ++ ["dist"]) ["demos"]
      [] h0 "demos" (sd2 ++ ["dist"]) [] (by simp) (by simp) hd0 hmkA
      (Node.file "" 0)
    rw [hfr.1]
    exact hfd
  have hisdA : os_path_isdir gA ((h0 :: sd2) ++ ["dist"]) = true :=
    os_makedirs_isdir fs _ true gA hmkA
  have e2 : copy_tree ["build"] ((h0 :: sd2) ++ ["dist"]) false none gA =
      (bes.map Prod.fst).foldl
        (treeStep ["build"] ((h0 :: sd2) ++ ["dist"]) false none)
        (.ok gA) := by
    unfold copy_tree
    rw [listdir_of_find gA ["build"] bes hfbA]
  rw [e2] at hctA
  obtain ⟨hsB, hiB, hpB, hfrB⟩ := fold_inv ["build"]
    ((h0 :: sd2) ++ ["dist"]) bes [] "build" h0 [] (sd2 ++ ["dist"])
    (by simp) (by simp) hb0 (bes.map Prod.fst) gA gB hfbA
    (allFiles_mem_lookup bes hab)
    (fun n v hv hnt => absurd (lookup_mem_keys bes n v hv) hnt)
    hctA
  have hfdB : Node.find gB ["demos"] = some (.dir des) := by
    have hfr := (hfrB ["demos"] [] h0 "demos" (sd2 ++ ["dist"]) []
      (Node.file "" 0) (by simp) (by simp) hd0).1
    rw [hfr]
    exact hfdA
  have e3 : copy_directory "demos" (h0 :: sd2) gB =
      (os_makedirs gB ((h0 :: sd2) ++ ["demos"]) true).bind
        (fun x => copy_tree ["demos"] ((h0 :: sd2) ++ ["demos"])
          false none x) := rfl
  rw [e3] at hdemos
  obtain ⟨gC, hmkC, hctC⟩ := except_bind_ok _ _ _ hdemos
  have hfbC : Node.find gC ["build"] = some (.dir bes) := by
    have hfr := os_makedirs_frame gB gC ((h0 :: sd2) ++ ["demos"]) ["build"]
      [] h0 "build" (sd2 ++ ["demos"]) [] (by simp) (by simp) hb0 hmkC
      (Node.file "" 0)
    rw [hfr.1]
    exact hsB
  have hfdC : Node.find gC ["demos"] = some (.dir des) := by
    have hfr := os_makedirs_frame gB gC ((h0 :: sd2) ++ ["demos"]) ["demos"]
      [] h0 "demos" (sd2 ++ ["demos"]) [] (by simp) (by simp) hd0 hmkC
      (Node.file "" 0)
    rw [hfr.1]
    exact hfdB
  have hisdC2 : os_path_isdir gC ((h0 :: sd2) ++ ["demos"]) = true :=
    os_makedirs_isdir gB _ true gC hmkC
  have hisdB1 : os_path_isdir gB ((h0 :: sd2) ++ ["dist"]) = true :=
    hiB hisdA
  have hfindC_D1 : Node.find gC ((h0 :: sd2) ++ ["dist"]) =
      Node.find gB ((h0 :: sd2) ++ ["dist"]) :=
    (os_makedirs_frame gB gC ((h0 :: sd2) ++ ["demos"])
      ((h0 :: sd2) ++ ["dist"]) (h0 :: sd2) "demos" "dist" [] []
      (by simp) (by simp) (by decide) hmkC (Node.file "" 0)).1
  have hisdC1 : os_path_isdir gC ((h0 :: sd2) ++ ["dist"]) = true := by
    rw [isdir_congr gC gB _ hfindC_D1]
    exact hisdB1
  have hpC : ∀ n v, lookupEntry bes n = some v →
      Node.find gC (((h0 :: sd2) ++ ["dist"]) ++ [n]) = some v ∧
      setAtAux (((h0 :: sd2) ++ ["dist"]) ++ [n]) gC v false = some gC := by
    intro n v hv
    obtain ⟨hf2, hs2⟩ := hpB n v hv
    have hfr := os_makedirs_frame gB gC ((h0 :: sd2) ++ ["demos"])
      (((h0 :: sd2) ++ ["dist"]) ++ [n]) (h0 :: sd2) "demos" "dist"
      [] [n] (by simp) (by simp) (by decide) hmkC v
    exact ⟨by rw [hfr.1]; exact hf2, hfr.2 hs2⟩
  have e4 : copy_tree ["demos"] ((h0 :: sd2) ++ ["demos"]) false none gC =
      (des.map Prod.fst).foldl
        (treeStep ["demos"] ((h0 :: sd2) ++ ["demos"]) false none)
        (.ok gC) := by
    unfold copy_tree
    rw [listdir_of_find gC ["demos"] des hfdC]
  rw [e4] at hctC
  obtain ⟨hsD, hiD, hpD, hfrD⟩ := fold_inv ["demos"]
    ((h0 :: sd2) ++ ["demos"]) des [] "demos" h0 [] (sd2 ++ ["demos"])
    (by simp) (by simp) hd0 (des.map Prod.fst) gC fs1 hfdC
    (allFiles_mem_lookup des had)
    (fun n v hv hnt => absurd (lookup_mem_keys des n v hv) hnt)
    hctC
  have hfb1 : Node.find fs1 ["build"] = some (.dir bes) := by
    have hfr := (hfrD ["build"] [] h0 "build" (sd2 ++ ["demos"]) []
      (Node.file "" 0) (by simp) (by simp) hb0).1
    rw [hfr]
    exact hfbC
  have hfind1_D1 : Node.find fs1 ((h0 :: sd2) ++ ["dist"]) =
      Node.find gC ((h0 :: sd2) ++ ["dist"]) :=
    (hfrD ((h0 :: sd2) ++ ["dist"]) (h0 :: sd2) "demos" "dist" [] []
      (Node.file "" 0) (by simp) (by simp) (by decide)).1
  have hisd1_D1 : os_path_isdir fs1 ((h0 :: sd2) ++ ["dist"]) = true := by
    rw [isdir_congr fs1 gC _ hfind1_D1]
    exact hisdC1
  have hisd1_D2 : os_path_isdir fs1 ((h0 :: sd2) ++ ["demos"]) = true :=
    hiD hisdC2
  have hp1 : ∀ n v, lookupEntry bes n = some v →
      Node.find fs1 (((h0 :: sd2) ++ ["dist"]) ++ [n]) = some v ∧
      setAtAux (((h0 :: sd2) ++ ["dist"]) ++ [n]) fs1 v false = some fs1 := by
    intro n v hv
    obtain ⟨hf2, hs2⟩ := hpC n v hv
    have hfr := hfrD (((h0 :: sd2) ++ ["dist"]) ++ [n]) (h0 :: sd2)
      "demos" "dist" [] [n] v (by simp) (by simp) (by decide)
    exact ⟨by rw [hfr.1]; exact hf2, hfr.2 hs2⟩
  exact publish_on_post cfg kw h0 sd2 bes des fs1 hsd hfb1 hab hsD had
    hisd1_D1 hisd1_D2 hp1 hpD

/-- A working directory with file-only sources, an unrelated extra entry,
and pre-existing destination content under `out/dist`. -/
def preRunFs : Node :=
  .dir [("build", .dir [("app.js", .file "a" 1)]),
        ("demos", .dir [("readme.txt", .file "b" 2)]),
        ("keep", .file "k" 9),
        ("out", .dir [("dist", .dir [("old.txt", .file "o" 5)])])]

/-- The filesystem after the first publish run on `preRunFs`: the sources
and the unrelated entries (including the pre-existing `out/dist/old.txt`)
are untouched, and the source files have been copied in. -/
def postRunFs : Node :=
  .dir [("build", .dir [("app.js", .file "a" 1)]),
        ("demos", .dir [("readme.txt", .file "b" 2)]),
        ("keep", .file "k" 9),
        ("out", .dir
          [("dist", .dir [("old.txt", .file "o" 5),
                          ("app.js", .file "a" 1)]),
           ("demos", .dir [("readme.txt", .file "b" 2)])])]

/-- Witness for the amended C3: a concrete first run (with pre-existing
destination content and an unrelated extra entry) whose result the second
run reproduces unchanged. -/
theorem C3_amended_witness :
    copy_static_files ⟨["out"], []⟩ [] postRunFs = .ok postRunFs :=
  C3_amended_idempotent_for_file_only_sources ⟨["out"], []⟩ [] preRunFs
    postRunFs "out" [] [("app.js", .file "a" 1)]
    [("readme.txt", .file "b" 2)] rfl (by decide) (by decide)
    rfl rfl rfl rfl rfl

/-- Filesystem used for the symbolic-link behaviour of `copy_tree`: the
demos source holds a top-level symlink to a file and a subdirectory with a
nested symlink; the destination directory exists and is empty. -/
def linkFs : Node :=
  .dir [("demos", .dir
          [("toplink", .symlink (.file "T" 3)),
           ("sub", .dir [("nlink", .symlink (.file "N" 4)),
                         ("real.txt", .file "R" 6)])]),
        ("out", .dir [])]

/-- Working directory with the demos source present but the build source
missing. -/
def noBuildFs : Node := .dir [("demos", .dir [("demo1", .dir [])])]

/-- The filesystem at the moment the missing-build error is raised:
`out/dist` was already created, nothing else changed. -/
def noBuildErrFs : Node :=
  .dir [("demos", .dir [("demo1", .dir [])]),
        ("out", .dir [("dist", .dir [])])]

/-- Claim C1: for site directory `/out`, with source `build/` containing
`app.js` and source `demos/` containing `demo1/index.html`, invoking
`copy_static_files` succeeds and both `/out/dist/app.js` and
`/out/demos/demo1/index.html` exist with content and metadata matching the
corresponding source files. -/
theorem C1_scenario_copies_both_files :
    copy_static_files scenarioConfig [] scenarioFs = .ok scenarioFsAfter ∧
    Node.find scenarioFs ["build", "app.js"] =
      some (.file "console.log(1)" 11) ∧
    Node.find scenarioFsAfter ["out", "dist", "app.js"] =
      some (.file "console.log(1)" 11) ∧
    Node.find scenarioFs ["demos", "demo1", "index.html"] =
      some (.file "<html></html>" 22) ∧
    Node.find scenarioFsAfter ["out", "demos", "demo1", "index.html"] =
      some (.file "<html></html>" 22) :=
  ⟨rfl, rfl, rfl, rfl, rfl⟩

/-- Claim C2: on every invocation, the `dist` logical name resolves to the
physical source directory `build` while its destination path uses `dist`,
and the `demos` logical name resolves to the source directory `demos`;
destination subdirectories are named after the logical names (behaviourally:
the scenario result has `/out/dist` but no `/out/build`). -/
theorem C2_logical_name_resolution :
    (∀ (cfg : Config) (kw : List (String × String)) (fs : Node),
        copy_static_files cfg kw fs =
          (copy_directory "dist" cfg.site_dir fs).bind
            (fun fs2 => copy_directory "demos" cfg.site_dir fs2)) ∧
    (∀ (sd : List String) (fs : Node),
        copy_directory "dist" sd fs =
          (os_makedirs fs (sd ++ ["dist"]) true).bind
            (fun fs2 => copy_tree ["build"] (sd ++ ["dist"]) false none fs2)) ∧
    (∀ (sd : List String) (fs : Node),
        copy_directory "demos" sd fs =
          (os_makedirs fs (sd ++ ["demos"]) true).bind
            (fun fs2 => copy_tree ["demos"] (sd ++ ["demos"]) false none fs2)) ∧
    Node.find scenarioFsAfter ["out", "build"] = none ∧
    os_path_isdir scenarioFsAfter ["out", "dist"] = true :=
  ⟨fun _ _ _ => rfl, fun _ _ => rfl, fun _ _ => rfl, rfl, rfl⟩

/-- Claim C3, counterexample: on the spec's own scenario filesystem the
first invocation succeeds, but a second invocation with unchanged sources
fails with `FileExistsError` on `/out/demos/demo1` instead of succeeding:
`shutil.copytree` refuses an existing destination directory, so publish is
not idempotent whenever a source has a top-level subdirectory. -/
theorem C3_counterexample_second_run_fails :
    copy_static_files scenarioConfig [] scenarioFs = .ok scenarioFsAfter ∧
    copy_static_files scenarioConfig [] scenarioFsAfter =
      .error (.fileExists ["out", "demos", "demo1"], scenarioFsAfter) :=
  ⟨rfl, rfl⟩

/-- Claim C4: `copy_directory` is exactly directory-creation followed by
copying, so the destination subdirectory (with all missing parents) exists
before any file copy into it is attempted; a pre-existing destination
directory causes no error and no change; and in the scenario, where the
site directory does not yet exist, invocation creates `/out/dist` and
`/out/demos` without error. -/
theorem C4_dest_dirs_created_first :
    (∀ (dp : String) (sd : List String) (fs : Node),
        copy_directory dp sd fs =
          (os_makedirs fs (sd ++ [dp]) true).bind
            (fun fs2 => copy_tree
              (if dp ≠ "dist" then [dp] else ["build"]) (sd ++ [dp])
              false none fs2)) ∧
    (∀ (fs : Node) (p : List String) (n : Node) (es : List (String × Node)),
        Node.find fs p = some n → n.resolve = .dir es →
        os_makedirs fs p true = .ok fs) ∧
    (Node.find scenarioFs ["out"] = none ∧
     copy_static_files scenarioConfig [] scenarioFs = .ok scenarioFsAfter ∧
     os_path_isdir scenarioFsAfter ["out", "dist"] = true ∧
     os_path_isdir scenarioFsAfter ["out", "demos"] = true) := by
  refine ⟨fun dp sd fs => rfl, fun fs p n es hf hr => ?_, rfl, rfl, rfl, rfl⟩
  simp [os_makedirs, hf, hr]

/-- Witness for C4: a pre-existing destination directory is tolerated. -/
theorem C4_witness :
    os_makedirs (.dir [("x", .dir [])]) ["x"] true =
      .ok (.dir [("x", .dir [])]) :=
  C4_dest_dirs_created_first.2.1 (.dir [("x", .dir [])]) ["x"] (.dir []) []
    rfl rfl

/-- Claim C5: a missing source directory makes publish fail with the
underlying `FileNotFoundError` unmodified, and the first error aborts all
remaining copy work of the invocation: the overall result is exactly the
error raised at the failure point, with the filesystem as it stood there
(a missing `build` aborts before any demos work; a missing `demos` aborts
the demos copy). -/
theorem C5_missing_source_aborts :
    (∀ (cfg : Config) (kw : List (String × String)) (fs fs2 : Node),
        os_makedirs fs (cfg.site_dir ++ ["dist"]) true = .ok fs2 →
        Node.find fs2 ["build"] = none →
        copy_static_files cfg kw fs =
          .error (.fileNotFound ["build"], fs2)) ∧
    (∀ (cfg : Config) (kw : List (String × String)) (fs fs1 fs2 : Node),
        copy_directory "dist" cfg.site_dir fs = .ok fs1 →
        os_makedirs fs1 (cfg.site_dir ++ ["demos"]) true = .ok fs2 →
        Node.find fs2 ["demos"] = none →
        copy_static_files cfg kw fs =
          .error (.fileNotFound ["demos"], fs2)) := by
  constructor
  · intro cfg kw fs fs2 hmk hfind
    have hct : copy_tree ["build"] (cfg.site_dir ++ ["dist"]) false none fs2 =
        .error (.fileNotFound ["build"], fs2) := by
      unfold copy_tree os_listdir
      rw [hfind]
    calc copy_static_files cfg kw fs
        = ((os_makedirs fs (cfg.site_dir ++ ["dist"]) true).bind
            (fun x => copy_tree ["build"] (cfg.site_dir ++ ["dist"])
              false none x)).bind
            (fun fs3 => copy_directory "demos" cfg.site_dir fs3) := rfl
      _ = (copy_tree ["build"] (cfg.site_dir ++ ["dist"]) false none fs2).bind
            (fun fs3 => copy_directory "demos" cfg.site_dir fs3) := by
            rw [hmk]; rfl
      _ = .error (.fileNotFound ["build"], fs2) := by rw [hct]; rfl
  · intro cfg kw fs fs1 fs2 hdist hmk hfind
    have hct : copy_tree ["demos"] (cfg.site_dir ++ ["demos"]) false none fs2 =
        .error (.fileNotFound ["demos"], fs2) := by
      unfold copy_tree os_listdir
      rw [hfind]
    calc copy_static_files cfg kw fs
        = (copy_directory "dist" cfg.site_dir fs).bind
            (fun fs3 => copy_directory "demos" cfg.site_dir fs3) := rfl
      _ = copy_directory "demos" cfg.site_dir fs1 := by rw [hdist]; rfl
      _ = (os_makedirs fs1 (cfg.site_dir ++ ["demos"]) true).bind
            (fun x => copy_tree ["demos"] (cfg.site_dir ++ ["demos"])
              false none x) := rfl
      _ = copy_tree ["demos"] (cfg.site_dir ++ ["demos"]) false none fs2 := by
            rw [hmk]; rfl
      _ = .error (.fileNotFound ["demos"], fs2) := hct

/-- Witness for C5: on an empty working directory, publish fails with the
not-found error for `build`, in the state where `out/dist` was created. -/
theorem C5_witness :
    copy_static_files ⟨["out"], []⟩ [] (.dir []) =
      .error (.fileNotFound ["build"],
        .dir [("out", .dir [("dist", .dir [])])]) :=
  C5_missing_source_aborts.1 ⟨["out"], []⟩ [] (.dir [])
    (.dir [("out", .dir [("dist", .dir [])])]) rfl rfl

/-- Claim C6: `copy_tree` folds the single `os.listdir` snapshot taken at
the start; for every listed entry, a subdirectory is copied as the entire
subtree under the same name (an exact copy — content and metadata — for
symlink-free trees), and a file is copied with content and metadata
preserved, overwriting an existing destination file of the same name. -/
theorem C6_copy_tree_entry_semantics :
    (∀ (fs : Node) (src dst : List String) (sl : Bool) (ig : Option Unit),
        copy_tree src dst sl ig fs =
          match os_listdir fs src with
          | .error e => .error e
          | .ok items => items.foldl (treeStep src dst sl ig) (.ok fs)) ∧
    (∀ (sl : Bool) (n : Node), symlinkFree n = true → copyNode sl n = n) ∧
    (∀ (fs : Node) (s d : List String) (sl : Bool) (ig : Option Unit)
        (n : Node) (es : List (String × Node)) (fs2 : Node),
        Node.find fs s = some n → n.resolve = .dir es →
        shutil_copytree s d sl ig fs = .ok fs2 →
        Node.find fs2 d = some (copyNode sl (.dir es))) ∧
    (∀ (fs : Node) (s d : List String) (n : Node) (c : String) (m : Nat)
        (c2 : String) (m2 : Nat) (fs2 : Node),
        Node.find fs s = some n → n.resolve = .file c m →
        Node.find fs d = some (.file c2 m2) →
        shutil_copy2 s d fs = .ok fs2 →
        Node.find fs2 d = some (.file c m)) := by
  refine ⟨fun fs src dst sl ig => rfl, copyNode_id, ?_, ?_⟩
  · intro fs s d sl ig n es fs2 hf hr hok
    unfold shutil_copytree at hok
    rw [hf] at hok
    simp only [hr] at hok
    split at hok
    · simp at hok
    · split at hok
      · rename_i fs3 hset
        simp only [Except.ok.injEq] at hok
        subst hok
        exact find_setAt_same d fs (copyNode sl (.dir es)) fs3 true hset
      · simp at hok
  · intro fs s d n c m c2 m2 fs2 hf hr hd hok
    unfold shutil_copy2 at hok
    rw [hf] at hok
    simp only [hr, hd, Option.map_some', Node.resolve] at hok
    split at hok
    · rename_i fs3 hset
      simp only [Except.ok.injEq] at hok
      subst hok
      exact find_setAt_same d fs (.file c m) fs3 false hset
    · simp at hok

/-- Witness for C6: a concrete `shutil.copy2` overwrites the destination
file with the source file's content and metadata. -/
theorem C6_witness :
    Node.find (.dir [("s", .file "x" 1), ("d", .file "x" 1)]) ["d"] =
      some (.file "x" 1) :=
  C6_copy_tree_entry_semantics.2.2.2
    (.dir [("s", .file "x" 1), ("d", .file "y" 2)]) ["s"] ["d"]
    (.file "x" 1) "x" 1 "y" 2
    (.dir [("s", .file "x" 1), ("d", .file "x" 1)]) rfl rfl rfl rfl

/-- Claim C7: the callers always invoke `copy_tree` with the default
`symlinks = false`, and then symbolic links are followed and copied as real
content (a top-level link via `shutil.copy2`, a nested link via
`shutil.copytree`); the preservation behaviour exists but only through the
`symlinks` parameter, which no caller supplies (with `symlinks = true` a
nested link is preserved as a link). -/
theorem C7_symlinks_followed_by_default :
    (∀ (dp : String) (sd : List String) (fs : Node),
        copy_directory dp sd fs =
          (os_makedirs fs (sd ++ [dp]) true).bind
            (fun fs2 => copy_tree
              (if dp ≠ "dist" then [dp] else ["build"]) (sd ++ [dp])
              false none fs2)) ∧
    (∃ fsA, copy_tree ["demos"] ["out"] false none linkFs = .ok fsA ∧
        Node.find fsA ["out", "toplink"] = some (.file "T" 3) ∧
        Node.find fsA ["out", "sub", "nlink"] = some (.file "N" 4)) ∧
    (∃ fsB, copy_tree ["demos"] ["out"] true none linkFs = .ok fsB ∧
        Node.find fsB ["out", "toplink"] = some (.file "T" 3) ∧
        Node.find fsB ["out", "sub", "nlink"] =
          some (.symlink (.file "N" 4))) :=
  ⟨fun _ _ _ => rfl, ⟨_, rfl, rfl, rfl⟩, ⟨_, rfl, rfl, rfl⟩⟩

/-- Claim C8: the hook's behaviour depends only on the configuration's
`site_dir` field and the filesystem; other configuration fields and the
extra keyword data are ignored: any two invocations agreeing on `site_dir`
and the filesystem produce identical results. -/
theorem C8_depends_only_on_site_dir
    (c1 c2 : Config) (kw1 kw2 : List (String × String)) (fs : Node)
    (h : c1.site_dir = c2.site_dir) :
    copy_static_files c1 kw1 fs = copy_static_files c2 kw2 fs := by
  unfold copy_static_files
  rw [h]

/-- Witness for C8 at configurations differing in extra fields and keyword
data. -/
theorem C8_witness :
    copy_static_files ⟨["out"], [("theme", "material")]⟩ [("plugin", "x")]
        scenarioFs =
      copy_static_files ⟨["out"], []⟩ [] scenarioFs :=
  C8_depends_only_on_site_dir ⟨["out"], [("theme", "material")]⟩
    ⟨["out"], []⟩ [("plugin", "x")] [] scenarioFs rfl

/-- Claim C9: the `dist` job runs entirely before the `demos` job, so an
error in the `dist` job is the whole invocation's result, and the demos
portion of the tree is untouched: concretely, with the `build` source
missing, publish stops with the not-found error, no `/out/demos`
subdirectory is created, and the demos source is unchanged. -/
theorem C9_dist_job_before_demos :
    (∀ (cfg : Config) (kw : List (String × String)) (fs : Node)
        (e : FsError) (fsE : Node),
        copy_directory "dist" cfg.site_dir fs = .error (e, fsE) →
        copy_static_files cfg kw fs = .error (e, fsE)) ∧
    (copy_static_files scenarioConfig [] noBuildFs =
        .error (.fileNotFound ["build"], noBuildErrFs) ∧
     Node.find noBuildErrFs ["out", "demos"] = none ∧
     Node.find noBuildErrFs ["demos"] = Node.find noBuildFs ["demos"]) := by
  refine ⟨fun cfg kw fs e fsE h => ?_, rfl, rfl, rfl⟩
  show (copy_directory "dist" cfg.site_dir fs).bind
      (fun fs2 => copy_directory "demos" cfg.site_dir fs2) = .error (e, fsE)
  rw [h]
  rfl

/-- Witness for C9: the dist-job error is the whole invocation's result. -/
theorem C9_witness :
    copy_static_files scenarioConfig [] noBuildFs =
      .error (.fileNotFound ["build"], noBuildErrFs) :=
  C9_dist_job_before_demos.1 scenarioConfig [] noBuildFs
    (.fileNotFound ["build"]) noBuildErrFs rfl

/-- Claim C10: `copy_directory` creates the destination subdirectory before
reading the source directory, so when the resolved source (`build`) is
missing the invocation raises the not-found error while the error-state
filesystem already contains the created destination subdirectory (and its
parents), which remains on disk. -/
theorem C10_dest_created_despite_error
    (fs : Node) (sd : List String) (fs2 : Node)
    (hmk : os_makedirs fs (sd ++ ["dist"]) true = .ok fs2)
    (hfind : Node.find fs2 ["build"] = none) :
    copy_directory "dist" sd fs = .error (.fileNotFound ["build"], fs2) ∧
    os_path_isdir fs2 (sd ++ ["dist"]) = true := by
  constructor
  · calc copy_directory "dist" sd fs
        = (os_makedirs fs (sd ++ ["dist"]) true).bind
            (fun x => copy_tree ["build"] (sd ++ ["dist"]) false none x) := rfl
      _ = copy_tree ["build"] (sd ++ ["dist"]) false none fs2 := by
            rw [hmk]; rfl
      _ = .error (.fileNotFound ["build"], fs2) := by
            unfold copy_tree os_listdir
            rw [hfind]
  · exact os_makedirs_isdir fs (sd ++ ["dist"]) true fs2 hmk

/-- Witness for C10: on an empty root, the dist job fails with not-found
but leaves the created `out/dist` directory in the error state. -/
theorem C10_witness :
    copy_directory "dist" ["out"] (.dir []) =
      .error (.fileNotFound ["build"],
        .dir [("out", .dir [("dist", .dir [])])]) ∧
    os_path_isdir (.dir [("out", .dir [("dist", .dir [])])])
      (["out"] ++ ["dist"]) = true :=
  C10_dest_created_despite_error (.dir []) ["out"]
    (.dir [("out", .dir [("dist", .dir [])])]) rfl rfl
